import Mathlib

/-!
Shallow embedding of the geometric constraint-propagation engine from
`src/tests/test_pysketcher_geometric_solver_3.py` (the final iteration of the
tutorial: `ConstraintSet` from the block at lines 1208-1325, `Constraint`
variants from lines 12-100 and 1327-1374, `CoincidentConstraint` and the
entity classes `Scalar`/`Point`/`Line` from lines 1698-1754, and the final
`ConstrainedValue` descriptor from lines 1653-1695, whose `__set__` does not
reset the target's constraints).

Python objects live in an explicit heap: every `ConstraintSet` instance is a
heap cell addressed by a natural number.  Python `==` on constraints is
modelled by `pyEq`; classes that do not define `__eq__`
(`FixedValueConstraint`, `InfluencedConstraint`) compare by object identity,
which we model with an allocation-fresh identity tag `iid`.
-/

namespace PySketch

/-- The two error classes of the engine: `InvalidConstraintException`
(raised by `validate_object`) and `UnderConstrainedError` (raised by
`resolve`). -/
inductive PyErr where
  | invalidConstraint
  | underConstrained
deriving DecidableEq, Repr

/-- The runtime class of a `ConstraintSet` heap cell.  `scalar` covers both
the bare `ConstraintSet`/`Scalar` classes (no declared fields); `point` and
`line` are the entity classes. -/
inductive Kind where
  | scalar
  | point
  | line
deriving DecidableEq, Repr

/-- The `Constraint` variants.
  * `fixed iid value` — `FixedValueConstraint(value)`; `iid` is the Python
    object identity (the class defines no `__eq__`, so `==` is identity).
  * `linked constraint_set` — `LinkedValueConstraint(cs)`; holds a reference
    to another `ConstraintSet` heap cell.
  * `influenced iid line point` — `InfluencedConstraint(c)` wrapping a
    `CoincidentConstraint` whose held line/point references are recorded;
    `iid` is the wrapper's own object identity (no `__eq__`).
  * `coincident line point` — `CoincidentConstraint(object)`; `line` is the
    held `Line` reference (when constructed from a `Line`), `point` the held
    `Point` reference. -/
inductive Constraint where
  | fixed (iid : Nat) (value : Int)
  | linked (constraint_set : Nat)
  | influenced (iid : Nat) (line point : Option Nat)
  | coincident (line point : Option Nat)
deriving DecidableEq, Repr

/-- Python `==` between constraints.
`LinkedValueConstraint.__eq__` compares class and `constraint_set` (set
comparison is identity, since `ConstraintSet` defines no `__eq__`);
`CoincidentConstraint.__eq__` compares class and the held line/point
references; `FixedValueConstraint` and `InfluencedConstraint` inherit
identity equality.  Cross-class comparisons are `False`. -/
def pyEq : Constraint → Constraint → Bool
  | .fixed i _, .fixed j _ => i == j
  | .linked s, .linked t => s == t
  | .influenced i _ _, .influenced j _ _ => i == j
  | .coincident l p, .coincident l2 p2 => l == l2 && p == p2
  | _, _ => false

/-- Python `constraint in self._constraints` (list membership via `==`). -/
def pyMem (c : Constraint) (cs : List Constraint) : Bool :=
  cs.any fun e => pyEq e c

/-- One `ConstraintSet` heap cell: its `_name`, its runtime class, its
`_constraints` list, and its materialized descriptor slots (the private
`_<field>` attributes set by `ConstrainedValue.__get__`), mapping a field
name to the heap address of the backing set. -/
structure CSet where
  name : String
  kind : Kind
  constraints : List Constraint
  fields : List (String × Nat)
deriving DecidableEq, Repr

/-- The Python heap: all allocated `ConstraintSet` cells (address = list
index), the per-class `_counter` attributes used by `_generate_name`, and
the allocator for identity tags of `__eq__`-less constraint objects. -/
structure St where
  sets : List CSet
  counterScalar : Nat
  counterPoint : Nat
  counterLine : Nat
  nextIid : Nat
deriving DecidableEq, Repr

def St.empty : St := ⟨[], 0, 0, 0, 0⟩

def defaultCSet : CSet := ⟨"", Kind.scalar, [], []⟩

def St.setOf (st : St) (s : Nat) : CSet :=
  (st.sets.get? s).getD defaultCSet

def St.constraintsOf (st : St) (s : Nat) : List Constraint :=
  (st.setOf s).constraints

def St.updateSet (st : St) (s : Nat) (f : CSet → CSet) : St :=
  { st with sets := st.sets.set s (f (st.setOf s)) }

/-- `self._constraints.append(constraint)` on cell `s`. -/
def St.appendC (st : St) (s : Nat) (c : Constraint) : St :=
  st.updateSet s fun cs => { cs with constraints := cs.constraints ++ [c] }

/-- Allocate a fresh object-identity tag. -/
def St.freshIid (st : St) : Nat × St :=
  (st.nextIid, { st with nextIid := st.nextIid + 1 })

/-- Assoc-list lookup modelling Python `dict`/attribute access by key. -/
def dict_get {α : Type} (d : List (String × α)) (k : String) : Option α :=
  (d.find? fun e => e.1 == k).map Prod.snd

/-- The class-level `_constraint_sets` list accumulated by
`ConstrainedValue.__set_name__`: `Point` declares `x`, `y` (in that order),
`Line` declares `start`, `end`; plain `ConstraintSet`/`Scalar` has none. -/
def constraint_sets : Kind → List String
  | .scalar => []
  | .point => ["x", "y"]
  | .line => ["start", "end"]

/-- The `_constraint_set_class` of each declared descriptor:
`Point.x = ConstrainedValue(Scalar)`, `Line.start = ConstrainedValue(Point)`
(and scalar is a junk default for undeclared names, never used by the
modelled program). -/
def field_class : Kind → String → Kind
  | .point, _ => .scalar
  | .line, _ => .point
  | .scalar, _ => .scalar

/-- `validate_object` of each variant applied to cell `s`:
`FixedValueConstraint` always passes; `LinkedValueConstraint` and
`InfluencedConstraint` require the instance to be a `ConstraintSet`
(every heap cell is one, so they pass); `CoincidentConstraint` holding a
line requires a `Point` instance and otherwise requires a `Line`,
raising `InvalidConstraintException` on mismatch. -/
def validate_object (st : St) (s : Nat) : Constraint → Option PyErr
  | .fixed _ _ => none
  | .linked _ => none
  | .influenced _ _ _ => none
  | .coincident l _ =>
    if l.isSome then
      if (st.setOf s).kind = Kind.point then none else some PyErr.invalidConstraint
    else
      if (st.setOf s).kind = Kind.line then none else some PyErr.invalidConstraint

/-- `ConstrainedValue.__get__`: return the materialized backing set for
field `fname` of instance `inst`, creating it on first access with name
`"<instance.name>.<field>"` and the declared nested class, and recording it
in the instance's private slot. -/
def ConstrainedValue_get (st : St) (inst : Nat) (fname : String) : St × Nat :=
  match dict_get (st.setOf inst).fields fname with
  | some fid => (st, fid)
  | none =>
    let fid := st.sets.length
    let child : CSet :=
      { name := (st.setOf inst).name ++ "." ++ fname
        kind := field_class (st.setOf inst).kind fname
        constraints := []
        fields := [] }
    let st1 : St := { st with sets := st.sets ++ [child] }
    (st1.updateSet inst fun cs => { cs with fields := cs.fields ++ [(fname, fid)] }, fid)

/-- `ConstraintSet.constrain_with(constraint)` on cell `s`, fuel-indexed
(`none` = fuel exhausted; fuel 3 always suffices, proved below).  Mirrors
the source: validate, dedup via list membership, append, then
`cascade_constraints` and `apply_reciprocal_constraint` of the variant:
  * `fixed`, `influenced`: both hooks are `pass`;
  * `linked t`: no cascade; reciprocal runs
    `self.constraint_set.constrain_with(LinkedValueConstraint(instance))`;
  * `coincident`: cascade installs a fresh `InfluencedConstraint(self)` onto
    `instance.x` and `instance.y` when holding a line, else onto
    `instance.start` and `instance.end`; reciprocal is `pass`.
A raised exception propagates immediately (first component `some e`),
keeping whatever mutations already happened. -/
def constrain_with : Nat → St → Nat → Constraint → Option (Option PyErr × St)
  | 0, _, _, _ => none
  | fuel + 1, st, s, c =>
    match validate_object st s c with
    | some e => some (some e, st)
    | none =>
      if pyMem c (st.constraintsOf s) then some (none, st)
      else
        let st1 := st.appendC s c
        match c with
        | .fixed _ _ => some (none, st1)
        | .influenced _ _ _ => some (none, st1)
        | .linked t => constrain_with fuel st1 t (.linked s)
        | .coincident l p =>
          let f1 := if l.isSome then "x" else "start"
          let f2 := if l.isSome then "y" else "end"
          let res1 := ConstrainedValue_get st1 s f1
          let alloc1 := res1.1.freshIid
          match constrain_with fuel alloc1.2 res1.2 (.influenced alloc1.1 l p) with
          | none => none
          | some (some e, st4) => some (some e, st4)
          | some (none, st4) =>
            let res2 := ConstrainedValue_get st4 s f2
            let alloc2 := res2.1.freshIid
            match constrain_with fuel alloc2.2 res2.2 (.influenced alloc2.1 l p) with
            | none => none
            | some (some e, st7) => some (some e, st7)
            | some (none, st7) => some (none, st7)

/-- `ConstraintSet.reset_constraints()`: empty the receiver's own list. -/
def reset_constraints (st : St) (s : Nat) : St :=
  st.updateSet s fun cs => { cs with constraints := [] }

/-- The scan loop inside `ConstraintSet.resolve`: the first constraint that
is a `FixedValueConstraint` yields its value, the first that is a
`LinkedValueConstraint` yields its target; other variants are skipped. -/
def first_resolvable : List Constraint → Option (Int ⊕ Nat)
  | [] => none
  | Constraint.fixed _ v :: _ => some (Sum.inl v)
  | Constraint.linked t :: _ => some (Sum.inr t)
  | _ :: rest => first_resolvable rest

/-- Outcome of a call that either returns a value or raises. -/
inductive RetVal where
  | ok (v : Int)
  | raised (e : PyErr)
deriving DecidableEq, Repr

/-- `ConstraintSet.resolve()`, fuel-indexed (`none` = fuel exhausted, i.e.
the call has not returned within `fuel` nested calls): return the first
fixed value, recurse through the first link, or raise
`UnderConstrainedError` when the scan finds neither. -/
def resolve : Nat → St → Nat → Option RetVal
  | 0, _, _ => none
  | fuel + 1, st, s =>
    match first_resolvable (st.constraintsOf s) with
    | none => some (RetVal.raised PyErr.underConstrained)
    | some (Sum.inl v) => some (RetVal.ok v)
    | some (Sum.inr t) => resolve fuel st t

/-- `resolve()` called on cell `s` returns `v`: some finite call depth
suffices. -/
def ResolvesTo (st : St) (s : Nat) (v : Int) : Prop :=
  ∃ n, resolve n st s = some (RetVal.ok v)

/-- `resolve()` called on cell `s` raises `UnderConstrainedError`. -/
def Raises (st : St) (s : Nat) : Prop :=
  ∃ n, resolve n st s = some (RetVal.raised PyErr.underConstrained)

/-- A Python value on the right-hand side of a field assignment: either a
plain (numeric) value or a reference to a `ConstraintSet` heap cell. -/
inductive PyVal where
  | pyInt (v : Int)
  | ref (s : Nat)
deriving DecidableEq, Repr

/-- `constrain_with` at the always-sufficient fuel 3
(`constrain_with_three_isSome` below shows the default is never taken). -/
def cw (st : St) (s : Nat) (c : Constraint) : Option PyErr × St :=
  (constrain_with 3 st s c).getD (none, st)

/-- The final `ConstrainedValue.__set__` (source lines 1683-1695): fetch the
backing set via `__get__`, then — with no reset — install a
`LinkedValueConstraint` when the assigned value is a `ConstraintSet` and a
fresh `FixedValueConstraint` otherwise. -/
def ConstrainedValue_set (st : St) (inst : Nat) (fname : String) (v : PyVal) :
    Option PyErr × St :=
  let res := ConstrainedValue_get st inst fname
  match v with
  | .ref target => cw res.1 res.2 (.linked target)
  | .pyInt n =>
    let alloc := res.1.freshIid
    cw alloc.2 res.2 (.fixed alloc.1 n)

def class_name : Kind → String
  | .scalar => "Scalar"
  | .point => "Point"
  | .line => "Line"

/-- `ConstraintSet._generate_name`: `f"{cls.__name__}{cls._counter}"` with a
per-class post-incremented counter. -/
def generate_name (st : St) (k : Kind) : String × St :=
  match k with
  | .scalar =>
    (class_name k ++ toString st.counterScalar,
     { st with counterScalar := st.counterScalar + 1 })
  | .point =>
    (class_name k ++ toString st.counterPoint,
     { st with counterPoint := st.counterPoint + 1 })
  | .line =>
    (class_name k ++ toString st.counterLine,
     { st with counterLine := st.counterLine + 1 })

/-- The loop body of `ConstraintSet._process_args`, already oriented: the
source iterates `self._constraint_sets[::-1]` and does `args.pop()` (pop
from the end), stopping when either list runs out, so it pairs the reversed
declared-field list with the reversed argument list. -/
def process_args_go : List String → List PyVal → List (String × PyVal)
  | f :: fs, v :: vs => (f, v) :: process_args_go fs vs
  | _, _ => []

/-- `ConstraintSet._process_args(args)`: build the field-to-value dict by
walking the declared field list backwards while popping arguments from the
end. -/
def process_args (fields : List String) (args : List PyVal) :
    List (String × PyVal) :=
  process_args_go fields.reverse args.reverse

/-- `ConstraintSet.__init__` for a class of kind `k` (source lines
1210-1224): allocate the instance with an empty constraint list, take the
explicit `name` kwarg or generate one, merge the positional-argument dict
over the keyword dict (`kwargs |= self._process_args(args)`, so positional
values win), then `_process_kwargs` assigns each declared field that has a
value, in declared order, through the descriptor's `__set__`.  Returns
(raised error if any assignment raised, heap, address of the new
instance). -/
def ConstraintSet_init (st : St) (k : Kind) (args : List PyVal)
    (kwargs : List (String × PyVal)) (nameKw : Option String) :
    Option PyErr × St × Nat :=
  let sid := st.sets.length
  let named := match nameKw with
    | some n => (n, st)
    | none => generate_name st k
  let st2 : St := { named.2 with sets := named.2.sets ++ [⟨named.1, k, [], []⟩] }
  let pa := process_args (constraint_sets k) args
  let merged : String → Option PyVal := fun f =>
    (dict_get pa f).orElse fun _ => dict_get kwargs f
  let final := (constraint_sets k).foldl
    (fun acc f =>
      match acc with
      | (some e, st3) => (some e, st3)
      | (none, st3) =>
        match merged f with
        | none => (none, st3)
        | some v => ConstrainedValue_set st3 sid f v)
    (none, st2)
  (final.1, final.2, sid)

/-! ### Basic lemmas about Python equality, membership and heap updates -/

theorem pyEq_refl (c : Constraint) : pyEq c c = true := by
  cases c <;> simp [pyEq]

theorem pyMem_concat_self (c : Constraint) (l : List Constraint) :
    pyMem c (l ++ [c]) = true := by
  simp [pyMem, List.any_append, pyEq_refl]

theorem pyMem_append_left {c : Constraint} {l : List Constraint}
    (h : pyMem c l = true) (l2 : List Constraint) : pyMem c (l ++ l2) = true := by
  unfold pyMem at *
  rw [List.any_append, h, Bool.true_or]

theorem setOf_updateSet_self {st : St} {s : Nat} (h : s < st.sets.length)
    (f : CSet → CSet) : (st.updateSet s f).setOf s = f (st.setOf s) := by
  simp [St.updateSet, St.setOf, List.getElem?_set_eq_of_lt _ h]

theorem setOf_updateSet_other {st : St} {s t : Nat} (h : t ≠ s)
    (f : CSet → CSet) : (st.updateSet s f).setOf t = st.setOf t := by
  simp [St.updateSet, St.setOf, List.getElem?_set_ne (fun hh => h hh.symm)]

theorem sets_length_updateSet (st : St) (s : Nat) (f : CSet → CSet) :
    (st.updateSet s f).sets.length = st.sets.length := by
  simp [St.updateSet]

theorem constraintsOf_appendC_self {st : St} {s : Nat} {c : Constraint}
    (h : s < st.sets.length) :
    (st.appendC s c).constraintsOf s = st.constraintsOf s ++ [c] := by
  simp [St.appendC, St.constraintsOf, setOf_updateSet_self h]

theorem constraintsOf_appendC_cases (st : St) (u : Nat) (c : Constraint)
    (s : Nat) :
    (st.appendC u c).constraintsOf s = st.constraintsOf s ∨
      (st.appendC u c).constraintsOf s = st.constraintsOf s ++ [c] := by
  by_cases hsu : s = u
  · subst hsu
    by_cases h : s < st.sets.length
    · exact Or.inr (constraintsOf_appendC_self h)
    · left
      have h0 : st.sets[s]? = none := by
        simp [List.getElem?_eq_none (le_of_not_lt h)]
      have h1 : st.sets.set s (CSet.mk ((st.setOf s).name) ((st.setOf s).kind)
          ((st.setOf s).constraints ++ [c]) ((st.setOf s).fields)) = st.sets :=
        List.set_eq_of_length_le (le_of_not_lt h)
      simp only [St.appendC, St.updateSet, St.constraintsOf, St.setOf] at h1 ⊢
      rw [h1]
  · left
    simp [St.appendC, St.constraintsOf, setOf_updateSet_other hsu]

theorem pyMem_appendC {st : St} {s : Nat} {x : Constraint} (u : Nat)
    (c : Constraint) (h : pyMem x (st.constraintsOf s) = true) :
    pyMem x ((st.appendC u c).constraintsOf s) = true := by
  rcases constraintsOf_appendC_cases st u c s with h2 | h2 <;> rw [h2]
  · exact h
  · exact pyMem_append_left h _

theorem sets_length_appendC (st : St) (s : Nat) (c : Constraint) :
    (st.appendC s c).sets.length = st.sets.length :=
  sets_length_updateSet ..

/-- `__get__` on an already-materialized field returns the stored backing
set and leaves the heap alone. -/
theorem ConstrainedValue_get_materialized {st : St} {inst : Nat} {f : String}
    {fid : Nat} (h : dict_get (st.setOf inst).fields f = some fid) :
    ConstrainedValue_get st inst f = (st, fid) := by
  simp [ConstrainedValue_get, h]

/-- `constrain_with` with an `InfluencedConstraint` never recurses: with any
positive fuel it validates (always fine), dedup-checks, and at most
appends. -/
theorem constrain_with_influenced (n : Nat) (st : St) (s i : Nat)
    (l p : Option Nat) :
    constrain_with (n + 1) st s (.influenced i l p) =
      some (none,
        if pyMem (.influenced i l p) (st.constraintsOf s) then st
        else st.appendC s (.influenced i l p)) := by
  by_cases h : pyMem (.influenced i l p) (st.constraintsOf s) = true <;>
    simp [constrain_with, validate_object, h]

/-- Two cells whose first resolvable constraint points at each other make
`resolve` recurse forever: no fuel is ever enough. -/
theorem resolve_mutual_none {st : St} {a b : Nat}
    (ha : first_resolvable (st.constraintsOf a) = some (Sum.inr b))
    (hb : first_resolvable (st.constraintsOf b) = some (Sum.inr a)) :
    ∀ n, resolve n st a = none ∧ resolve n st b = none := by
  intro n
  induction n with
  | zero => exact ⟨rfl, rfl⟩
  | succ n ih =>
    refine ⟨?_, ?_⟩
    · simp [resolve, ha, ih.2]
    · simp [resolve, hb, ih.1]

/-! ### Step lemmas for `constrain_with` -/

theorem validate_linked (st : St) (s t : Nat) :
    validate_object st s (.linked t) = none := rfl

theorem constrain_with_validate_fail {st : St} {s : Nat} {c : Constraint}
    {e : PyErr} (n : Nat) (hv : validate_object st s c = some e) :
    constrain_with (n + 1) st s c = some (some e, st) := by
  simp [constrain_with, hv]

theorem constrain_with_dup {st : St} {s : Nat} {c : Constraint} (n : Nat)
    (hv : validate_object st s c = none)
    (hm : pyMem c (st.constraintsOf s) = true) :
    constrain_with (n + 1) st s c = some (none, st) := by
  simp [constrain_with, hv, hm]

theorem constrain_with_linked_new {st : St} {s t : Nat} (n : Nat)
    (hm : pyMem (.linked t) (st.constraintsOf s) = false) :
    constrain_with (n + 1) st s (.linked t) =
      constrain_with n (st.appendC s (.linked t)) t (.linked s) := by
  simp [constrain_with, validate_object, hm]

theorem constrain_with_coincident_isSome (st : St) (s : Nat)
    (l p : Option Nat) (n : Nat) :
    (constrain_with (n + 2) st s (.coincident l p)).isSome = true := by
  show (constrain_with ((n + 1) + 1) st s (.coincident l p)).isSome = true
  simp only [constrain_with, validate_object]
  repeat' first
  | split_ifs
  | simp

/-! ### Lemmas about `process_args` -/

theorem process_args_go_eq_zip :
    ∀ (l1 : List String) (l2 : List PyVal), process_args_go l1 l2 = l1.zip l2
  | [], l2 => by cases l2 <;> simp [process_args_go]
  | _ :: _, [] => by simp [process_args_go]
  | f :: fs, v :: vs => by
    simp [process_args_go, process_args_go_eq_zip fs vs]

theorem zip_append_left_of_length_eq {α β : Type} :
    ∀ (a b : List α) (c : List β), a.length = c.length →
      (a ++ b).zip c = a.zip c
  | [], b, [], _ => by simp
  | x :: xs, b, y :: ys, h => by
    simp only [List.cons_append, List.zip_cons_cons]
    rw [zip_append_left_of_length_eq xs b ys (by simpa using h)]

theorem zip_append_of_length_eq {α β : Type} :
    ∀ (a1 : List α) (b1 : List β) (a2 : List α) (b2 : List β),
      a1.length = b1.length →
      (a1 ++ a2).zip (b1 ++ b2) = a1.zip b1 ++ a2.zip b2
  | [], [], _, _, _ => by simp
  | x :: xs, y :: ys, a2, b2, h => by
    simp only [List.cons_append, List.zip_cons_cons]
    rw [zip_append_of_length_eq xs ys a2 b2 (by simpa using h)]

theorem zip_reverse_of_length_eq {α β : Type} :
    ∀ (a : List α) (c : List β), a.length = c.length →
      a.reverse.zip c.reverse = (a.zip c).reverse
  | [], [], _ => by simp
  | x :: xs, y :: ys, h => by
    have hl : xs.length = ys.length := by simpa using h
    simp only [List.reverse_cons, List.zip_cons_cons]
    rw [zip_append_of_length_eq xs.reverse ys.reverse [x] [y] (by simpa using hl),
      zip_reverse_of_length_eq xs ys hl]
    simp

/-! ### Concrete program runs used by the claims

Heap addresses follow allocation order.  In the two-point heap: `p` is
cell 0 (`Point0`), `q` is cell 1 (`Point1`), and the first materialized
field becomes cell 2, the next cell 3. -/

/-- `p = Point()` on a fresh heap: `p` is cell 0. -/
def st_p := ConstraintSet_init St.empty Kind.point [] [] none

/-- `q = Point()`: `q` is cell 1. -/
def st_q := ConstraintSet_init st_p.2.1 Kind.point [] [] none

/-- `p.x = 1`: materializes `p.x` as cell 2 and installs a fixed value. -/
def s1a := (ConstrainedValue_set st_q.2.1 st_p.2.2 "x" (.pyInt 1)).2

/-- Reading `p.x` (the right-hand side of `q.x = p.x`). -/
def s1b := ConstrainedValue_get s1a st_p.2.2 "x"

/-- `q.x = p.x`: materializes `q.x` as cell 3 and links it to `p.x`; the
reciprocal installation links `p.x` back to `q.x`. -/
def s1c := (ConstrainedValue_set s1b.1 st_q.2.2 "x" (.ref s1b.2)).2

/-- `p.x = 2` through the final `__set__`: no reset, the new fixed value is
appended after the existing constraints of `p.x`. -/
def s1d := (ConstrainedValue_set s1c st_p.2.2 "x" (.pyInt 2)).2

/-- `p.x.reset_constraints()` issued after `p.x = 1; q.x = p.x`: `p.x`
(cell 2) is emptied while `q.x` (cell 3) still carries its link to `p.x`. -/
def s5 := reset_constraints s1c 2

/-- Reading `p.x` on the two-point heap where nothing is constrained yet:
materializes `p.x` as cell 2. -/
def s9b := ConstrainedValue_get st_q.2.1 st_p.2.2 "x"

/-- `q.x = p.x` with `p.x` previously unconstrained: `q.x` is cell 3 and
the two field cells hold mutual `LinkedValueConstraint`s. -/
def s9c := (ConstrainedValue_set s9b.1 st_q.2.2 "x" (.ref s9b.2)).2

/-- Reading `q.x` back after the mutual link was formed. -/
def s9qx := ConstrainedValue_get s9c st_q.2.2 "x"

/-- `p.x.reset_constraints()` on the mutually-linked heap: used to build a
single-assignment state in which the dedup check suppresses the reciprocal
installation. -/
def s3r := reset_constraints s9c 2

/-- Reading `q.x` once on the two-point heap (materializes it as cell 3)
before any assignment, so the link-symmetry theorem's materialization
hypothesis can be discharged concretely. -/
def s3w := ConstrainedValue_get s9b.1 st_q.2.2 "x"

/-- `p = Point(); l = Line()` on a fresh heap (`p` cell 0, `l` cell 1). -/
def s7p := ConstraintSet_init St.empty Kind.point [] [] none
def s7l := ConstraintSet_init s7p.2.1 Kind.line [] [] none

/-- `c = CoincidentConstraint(p)`: holds a `Point`. -/
def s7c : Constraint := .coincident none (some s7p.2.2)

/-- `l.constrain_with(c)`: the cascade materializes `l.start` (cell 2) and
`l.end` (cell 3) and installs an `InfluencedConstraint` on each. -/
def s7r := cw s7l.2.1 s7l.2.2 s7c

/-- `l.constrain_with(c)` a second time with the same constraint. -/
def s7r2 := cw s7r.2 s7l.2.2 s7c

/-- `l2 = Line(); p2 = Point()` on a fresh heap (`l2` cell 0, `p2` cell 1). -/
def s7bl := ConstraintSet_init St.empty Kind.line [] [] none
def s7bp := ConstraintSet_init s7bl.2.1 Kind.point [] [] none

/-- `c2 = CoincidentConstraint(l2)`: holds a `Line`. -/
def s7bc : Constraint := .coincident (some s7bl.2.2) none

/-- `p2.constrain_with(c2)`: the cascade hits `p2.x` (cell 2) and `p2.y`
(cell 3). -/
def s7br := cw s7bp.2.1 s7bp.2.2 s7bc

/-- `p2.constrain_with(c2)` a second time with the same constraint. -/
def s7br2 := cw s7br.2 s7bp.2.2 s7bc

/-- Number of `InfluencedConstraint` entries in a list wrapping the
coincident constraint whose held references are `(l, p)`. -/
def count_influenced (l p : Option Nat) (cs : List Constraint) : Nat :=
  (cs.filter fun c => match c with
    | .influenced _ l2 p2 => l2 == l && p2 == p
    | _ => false).length

/-- `p = Point(1, 2)` on a fresh heap. -/
def s8 := ConstraintSet_init St.empty Kind.point [.pyInt 1, .pyInt 2] [] none

/-! ### The claims -/

/-- C1 (counterexample): with fresh points `p` and `q`, after `p.x = 1`,
`q.x = p.x`, `p.x = 2`, the call `q.x.resolve()` does not return `2` at any
call depth — the final `ConstrainedValue.__set__` (source lines 1683-1695)
does not reset the backing set before installing the new
`FixedValueConstraint`, so `p.x` still begins with the old fixed value. -/
theorem C1_counterexample : ¬ ResolvesTo s1d 3 2 := by
  rintro ⟨n, h⟩
  have h3 : first_resolvable (s1d.constraintsOf 3) = some (Sum.inr 2) := by decide
  have h2 : first_resolvable (s1d.constraintsOf 2) = some (Sum.inl 1) := by decide
  match n, h with
  | 0, h => simp [resolve] at h
  | 1, h => simp [resolve, h3] at h
  | n + 2, h =>
    rw [show n + 2 = (n + 1) + 1 from rfl] at h
    simp [resolve, h3, h2] at h

/-- C1 (amended): after `p.x = 1`, `q.x = p.x`, `p.x = 2`,
`q.x.resolve()` returns `1`: the final `__set__` appends without resetting,
so `p.x`'s list is `[FixedValueConstraint(1), LinkedValueConstraint(q.x),
FixedValueConstraint(2)]` and resolution — which does re-walk the live link
graph on every call — stops at the first `FixedValueConstraint`, the stale
value `1`. -/
theorem C1_amended :
    s1d.constraintsOf 2 = [.fixed 0 1, .linked 3, .fixed 1 2] ∧
    s1d.constraintsOf 3 = [.linked 2] ∧
    ResolvesTo s1d 3 1 :=
  ⟨by decide, by decide, ⟨2, by decide⟩⟩

/-- C2: `constrain_with` terminates for every constraint variant: on any
heap, for any cell in range and any constraint, recursion depth 3 always
suffices (the only re-entrancy, a `LinkedValueConstraint`'s reciprocal
installation, is halted by the duplicate check when it re-enters the
initiating set, where an equal link is by then present). -/
theorem C2_constrain_with_terminates (st : St) (s : Nat) (c : Constraint)
    (fuel : Nat) (hs : s < st.sets.length) (hf : 3 ≤ fuel) :
    (constrain_with fuel st s c).isSome = true := by
  obtain ⟨k, rfl⟩ : ∃ k, fuel = k + 3 := ⟨fuel - 3, by omega⟩
  rcases hv : validate_object st s c with _ | e
  · cases hm : pyMem c (st.constraintsOf s) with
    | true =>
      rw [show k + 3 = (k + 2) + 1 from rfl, constrain_with_dup _ hv hm]
      rfl
    | false =>
      cases c with
      | fixed i v =>
        rw [show k + 3 = (k + 2) + 1 from rfl]
        simp [constrain_with, hv, hm]
      | influenced i l p =>
        rw [show k + 3 = (k + 2) + 1 from rfl, constrain_with_influenced]
        rfl
      | coincident l p => exact constrain_with_coincident_isSome st s l p (k + 1)
      | linked t =>
        rw [show k + 3 = (k + 2) + 1 from rfl, constrain_with_linked_new _ hm]
        cases hm2 : pyMem (.linked s)
            ((st.appendC s (.linked t)).constraintsOf t) with
        | true =>
          rw [show k + 2 = (k + 1) + 1 from rfl, constrain_with_dup _ (validate_linked _ _ _) hm2]
          rfl
        | false =>
          rw [show k + 2 = (k + 1) + 1 from rfl, constrain_with_linked_new _ hm2]
          have hmem : pyMem (.linked t)
              (((st.appendC s (.linked t)).appendC t
                (.linked s)).constraintsOf s) = true := by
            apply pyMem_appendC
            rw [constraintsOf_appendC_self hs]
            exact pyMem_concat_self _ _
          rw [show k + 1 = k + 1 from rfl, constrain_with_dup k (validate_linked _ _ _) hmem]
          rfl
  · rw [show k + 3 = (k + 2) + 1 from rfl, constrain_with_validate_fail _ hv]
    rfl

/-- C2 (witness): the termination bound applied to a concrete call — a
self-link constraint on the one-point heap. -/
theorem C2_witness :
    (0 : Nat) < st_p.2.1.sets.length ∧ (3 : Nat) ≤ 3 ∧
    (constrain_with 3 st_p.2.1 0 (Constraint.linked 0)).isSome = true :=
  ⟨by decide, by decide,
    C2_constrain_with_terminates st_p.2.1 0 (Constraint.linked 0) 3
      (by decide) (by decide)⟩

/-- C3 (counterexample): link symmetry fails for a single assignment when
the assigning side already carries an equal link: after `q.x = p.x`,
`p.x.reset_constraints()`, a fresh single assignment `q.x = p.x` leaves
`p.x`'s list empty — the dedup check on `q.x` returns before the reciprocal
installation, so `p.x` does not receive a `LinkedValueConstraint`
referencing `q.x`. -/
theorem C3_counterexample :
    (ConstrainedValue_set s3r st_q.2.2 "x" (.ref 2)).1 = none ∧
    (ConstrainedValue_set s3r st_q.2.2 "x" (.ref 2)).2.constraintsOf 2 = [] ∧
    pyMem (.linked 3)
      ((ConstrainedValue_set s3r st_q.2.2 "x" (.ref 2)).2.constraintsOf 2)
        = false := by
  refine ⟨by decide, by decide, by decide⟩

/-- C3 (amended): a single assignment `q.field = p.field` (through the
descriptor `__set__`, with `q.field` materialized as cell `qx` and the
right-hand side evaluating to cell `px`, both in range) installs a
`LinkedValueConstraint` to `px` on `qx` and the reciprocal
`LinkedValueConstraint` to `qx` on `px` — provided `qx` does not already
carry an equal link to `px` (otherwise the dedup check suppresses the
reciprocal installation). -/
theorem C3_amended {st : St} {q : Nat} {f : String} {qx px : Nat}
    (hq : dict_get (st.setOf q).fields f = some qx)
    (hqx : qx < st.sets.length) (hpx : px < st.sets.length)
    (hnew : pyMem (.linked px) (st.constraintsOf qx) = false) :
    (ConstrainedValue_set st q f (.ref px)).1 = none ∧
    pyMem (.linked px)
      ((ConstrainedValue_set st q f (.ref px)).2.constraintsOf qx) = true ∧
    pyMem (.linked qx)
      ((ConstrainedValue_set st q f (.ref px)).2.constraintsOf px) = true := by
  have hget : ConstrainedValue_get st q f = (st, qx) :=
    ConstrainedValue_get_materialized hq
  have hset : ConstrainedValue_set st q f (.ref px) = cw st qx (.linked px) := by
    simp [ConstrainedValue_set, hget]
  rw [hset]
  have h1 : constrain_with 3 st qx (.linked px) =
      constrain_with 2 (st.appendC qx (.linked px)) px (.linked qx) :=
    constrain_with_linked_new 2 hnew
  cases hm2 : pyMem (.linked qx)
      ((st.appendC qx (.linked px)).constraintsOf px) with
  | true =>
    have h2 : constrain_with 2 (st.appendC qx (.linked px)) px (.linked qx) =
        some (none, st.appendC qx (.linked px)) :=
      constrain_with_dup 1 (validate_linked _ _ _) hm2
    have hcw : cw st qx (.linked px) = (none, st.appendC qx (.linked px)) := by
      simp [cw, h1, h2]
    rw [hcw]
    refine ⟨rfl, ?_, hm2⟩
    rw [constraintsOf_appendC_self hqx]
    exact pyMem_concat_self _ _
  | false =>
    have h2 : constrain_with 2 (st.appendC qx (.linked px)) px (.linked qx) =
        constrain_with 1
          ((st.appendC qx (.linked px)).appendC px (.linked qx)) qx
          (.linked px) :=
      constrain_with_linked_new 1 hm2
    have hmem : pyMem (.linked px)
        (((st.appendC qx (.linked px)).appendC px
          (.linked qx)).constraintsOf qx) = true := by
      apply pyMem_appendC
      rw [constraintsOf_appendC_self hqx]
      exact pyMem_concat_self _ _
    have h3 : constrain_with 1
        ((st.appendC qx (.linked px)).appendC px (.linked qx)) qx
        (.linked px) =
        some (none, (st.appendC qx (.linked px)).appendC px (.linked qx)) :=
      constrain_with_dup 0 (validate_linked _ _ _) hmem
    have hcw : cw st qx (.linked px) =
        (none, (st.appendC qx (.linked px)).appendC px (.linked qx)) := by
      simp [cw, h1, h2, h3]
    rw [hcw]
    refine ⟨rfl, hmem, ?_⟩
    have hpx1 : px < (st.appendC qx (.linked px)).sets.length := by
      rw [sets_length_appendC]; exact hpx
    rw [constraintsOf_appendC_self hpx1]
    exact pyMem_concat_self _ _

/-- C3 (witness): the amended link-symmetry statement on the two-point heap
with both fields fresh: one assignment `q.x = p.x` installs both links. -/
theorem C3_witness :
    dict_get (s3w.1.setOf st_q.2.2).fields "x" = some 3 ∧
    3 < s3w.1.sets.length ∧ 2 < s3w.1.sets.length ∧
    pyMem (.linked 2) (s3w.1.constraintsOf 3) = false ∧
    ((ConstrainedValue_set s3w.1 st_q.2.2 "x" (.ref 2)).1 = none ∧
     pyMem (.linked 2)
       ((ConstrainedValue_set s3w.1 st_q.2.2 "x" (.ref 2)).2.constraintsOf 3)
         = true ∧
     pyMem (.linked 3)
       ((ConstrainedValue_set s3w.1 st_q.2.2 "x" (.ref 2)).2.constraintsOf 2)
         = true) :=
  ⟨by decide, by decide, by decide, by decide,
    C3_amended (by decide) (by decide) (by decide) (by decide)⟩

/-- C4: validation is atomic: whenever `validate_object` rejects a
constraint on a cell, `constrain_with` (at any recursion depth) returns
exactly that error with the heap untouched — the error is raised before any
mutation, propagates to the caller, and no cascade or reciprocal
installation happens. -/
theorem C4_validation_atomic (fuel : Nat) (st : St) (s : Nat)
    (c : Constraint) (e : PyErr) (h : validate_object st s c = some e) :
    constrain_with (fuel + 1) st s c = some (some e, st) := by
  simp [constrain_with, h]

/-- C4 (witness): `CoincidentConstraint(l2)` (constructed from a `Line`)
applied to the `Line` `l2` itself raises `InvalidConstraintException` and
leaves the heap — in particular `l2`'s constraint list — exactly as it
was. -/
theorem C4_witness :
    validate_object s7bp.2.1 0 (Constraint.coincident (some 0) none)
        = some PyErr.invalidConstraint ∧
    constrain_with 3 s7bp.2.1 0 (Constraint.coincident (some 0) none)
        = some (some PyErr.invalidConstraint, s7bp.2.1) :=
  ⟨by decide, C4_validation_atomic 2 s7bp.2.1 0 _ _ (by decide)⟩

/-- C6: idempotent re-application: when a constraint equal (Python `==`) to
one already in the cell's list is passed to `constrain_with` (and its
validation passes, as it did on first installation), the call returns with
the heap completely unchanged — same list, same resolution, same rendering,
and neither `cascade_constraints` nor `apply_reciprocal_constraint` runs. -/
theorem C6_idempotent (fuel : Nat) (st : St) (s : Nat) (c : Constraint)
    (hv : validate_object st s c = none)
    (hm : pyMem c (st.constraintsOf s) = true) :
    constrain_with (fuel + 1) st s c = some (none, st) := by
  simp [constrain_with, hv, hm]

/-- C6 (witness): re-adding the fixed constraint already installed on `p.x`
returns the heap unchanged. -/
theorem C6_witness :
    validate_object s1a 2 (Constraint.fixed 0 1) = none ∧
    pyMem (Constraint.fixed 0 1) (s1a.constraintsOf 2) = true ∧
    constrain_with 3 s1a 2 (Constraint.fixed 0 1) = some (none, s1a) :=
  ⟨by decide, by decide, C6_idempotent 2 s1a 2 _ (by decide) (by decide)⟩

/-- C5 (counterexample): `resolve()` can raise `UnderConstrainedError` even
though the list does contain a `LinkedValueConstraint`: after `p.x = 1;
q.x = p.x; p.x.reset_constraints()`, `q.x`'s list is exactly
`[LinkedValueConstraint(p.x)]`, yet `q.x.resolve()` raises — the error
propagates out of the link's target instead of being decided by the local
list alone, so the claimed "if and only if" fails. -/
theorem C5_counterexample :
    s5.constraintsOf 3 = [Constraint.linked 2] ∧ Raises s5 3 :=
  ⟨by decide, ⟨2, by decide⟩⟩

/-- C5 (amended): `resolve()` scans the list in insertion order; if the
first fixed-or-linked constraint is a `FixedValueConstraint` its value is
returned, if it is a `LinkedValueConstraint` the call resolves exactly as
the link's target does; and it raises `UnderConstrainedError` if and only
if the scan finds neither a fixed nor a linked constraint, or the first one
found is a link whose target's `resolve()` itself raises
`UnderConstrainedError`. -/
theorem C5_amended (st : St) (s : Nat) :
    (Raises st s ↔
      first_resolvable (st.constraintsOf s) = none ∨
        ∃ t, first_resolvable (st.constraintsOf s) = some (Sum.inr t) ∧
          Raises st t) ∧
    (∀ v, first_resolvable (st.constraintsOf s) = some (Sum.inl v) →
      ResolvesTo st s v) ∧
    (∀ t, first_resolvable (st.constraintsOf s) = some (Sum.inr t) →
      ∀ v, (ResolvesTo st s v ↔ ResolvesTo st t v)) := by
  refine ⟨⟨?_, ?_⟩, ?_, ?_⟩
  · rintro ⟨n, h⟩
    match n, h with
    | 0, h => simp [resolve] at h
    | n + 1, h =>
      rcases hf : first_resolvable (st.constraintsOf s) with _ | v | t
      · exact Or.inl rfl
      · simp only [resolve, hf] at h
        simp at h
      · refine Or.inr ⟨t, rfl, ⟨n, ?_⟩⟩
        simp only [resolve, hf] at h
        exact h
  · rintro (hf | ⟨t, hf, n, h⟩)
    · exact ⟨1, by simp [resolve, hf]⟩
    · exact ⟨n + 1, by simp [resolve, hf, h]⟩
  · intro v hf
    exact ⟨1, by simp [resolve, hf]⟩
  · intro t hf v
    constructor
    · rintro ⟨n, h⟩
      match n, h with
      | 0, h => simp [resolve] at h
      | n + 1, h =>
        rw [resolve, hf] at h
        exact ⟨n, h⟩
    · rintro ⟨n, h⟩
      exact ⟨n + 1, by simp [resolve, hf, h]⟩

/-- C5 (witness): the first-fixed rule applied concretely: on `p.x`'s list
after `p.x = 1` the scan finds `FixedValueConstraint(1)` first and
`resolve()` returns `1`. -/
theorem C5_witness :
    first_resolvable (s1a.constraintsOf 2) = some (Sum.inl 1) ∧
    ResolvesTo s1a 2 1 :=
  ⟨by decide, (C5_amended s1a 2).2.1 1 (by decide)⟩

/-- C7: cascade of a `CoincidentConstraint`: one holding a `Point` applied
to a `Line` installs exactly one wrapping `InfluencedConstraint` on each of
`l.start` and `l.end`; one holding a `Line` applied to a `Point` installs
exactly one on each of `p.x` and `p.y`; and a second application of the
same constraint to the same entity is a no-op (error-free, heap unchanged),
so no duplicate `InfluencedConstraint` entries appear. -/
theorem C7_cascade :
    (s7r.1 = none ∧
     count_influenced none (some s7p.2.2)
       (s7r.2.constraintsOf (ConstrainedValue_get s7r.2 s7l.2.2 "start").2)
         = 1 ∧
     count_influenced none (some s7p.2.2)
       (s7r.2.constraintsOf (ConstrainedValue_get s7r.2 s7l.2.2 "end").2)
         = 1 ∧
     s7r2 = (none, s7r.2)) ∧
    (s7br.1 = none ∧
     count_influenced (some s7bl.2.2) none
       (s7br.2.constraintsOf (ConstrainedValue_get s7br.2 s7bp.2.2 "x").2)
         = 1 ∧
     count_influenced (some s7bl.2.2) none
       (s7br.2.constraintsOf (ConstrainedValue_get s7br.2 s7bp.2.2 "y").2)
         = 1 ∧
     s7br2 = (none, s7br.2)) := by
  refine ⟨⟨by decide, by decide, by decide, by decide⟩,
    ⟨by decide, by decide, by decide, by decide⟩⟩

/-- C8: positional construction maps arguments right-to-left onto the
declared field list: whenever the argument list is no longer than the
declared list, `_process_args` pairs the trailing declared fields with the
arguments in order and leaves all leading fields unset; concretely,
`Point(1, 2)` fixes `x` to `1` and `y` to `2`, while `Point(v)` fixes `y`
to `v` and leaves `x` unset (not even materialized). -/
theorem C8_positional_args :
    (∀ (fields1 fields2 : List String) (args : List PyVal),
        args.length = fields2.length →
        process_args (fields1 ++ fields2) args = (fields2.zip args).reverse) ∧
    (s8.1 = none ∧
     s8.2.1.constraintsOf (ConstrainedValue_get s8.2.1 s8.2.2 "x").2
        = [Constraint.fixed 0 1] ∧
     s8.2.1.constraintsOf (ConstrainedValue_get s8.2.1 s8.2.2 "y").2
        = [Constraint.fixed 1 2]) ∧
    (∀ v : Int,
      (ConstraintSet_init St.empty Kind.point [PyVal.pyInt v] [] none).1
          = none ∧
      dict_get ((ConstraintSet_init St.empty Kind.point [PyVal.pyInt v] []
          none).2.1.setOf
        (ConstraintSet_init St.empty Kind.point [PyVal.pyInt v] []
          none).2.2).fields "x" = none ∧
      dict_get ((ConstraintSet_init St.empty Kind.point [PyVal.pyInt v] []
          none).2.1.setOf
        (ConstraintSet_init St.empty Kind.point [PyVal.pyInt v] []
          none).2.2).fields "y" = some 1 ∧
      (ConstraintSet_init St.empty Kind.point [PyVal.pyInt v] []
          none).2.1.constraintsOf 1 = [Constraint.fixed 0 v]) := by
  refine ⟨?_, ⟨by decide, by decide, by decide⟩, ?_⟩
  · intro f1 f2 args h
    unfold process_args
    rw [process_args_go_eq_zip, List.reverse_append,
      zip_append_left_of_length_eq f2.reverse f1.reverse args.reverse
        (by simp [h]),
      zip_reverse_of_length_eq f2 args h.symm]
  · intro v
    exact ⟨rfl, rfl, rfl, rfl⟩

/-- C8 (witness): the right-to-left rule applied to `Point`'s declared
field list `["x", "y"]` with the single argument `5`: only `y` is paired. -/
theorem C8_witness :
    ([PyVal.pyInt 5] : List PyVal).length = (["y"] : List String).length ∧
    process_args (["x"] ++ ["y"]) [PyVal.pyInt 5]
      = ((["y"].zip [PyVal.pyInt 5])).reverse :=
  ⟨by decide, C8_positional_args.1 ["x"] ["y"] [PyVal.pyInt 5] (by decide)⟩

/-- C9: `resolve()` performs no cycle detection: on the heap produced by
`q.x = p.x` with `p.x` previously unconstrained, the two field cells hold
mutual links as their only constraints, and `q.x.resolve()` never returns
at any call depth — it neither produces a value nor raises the
under-constrained error. -/
theorem C9_resolve_diverges :
    s9qx.1.constraintsOf s9qx.2 = [Constraint.linked 2] ∧
    s9qx.1.constraintsOf 2 = [Constraint.linked s9qx.2] ∧
    ∀ n, resolve n s9qx.1 s9qx.2 = none :=
  ⟨by decide, by decide,
    fun n => (@resolve_mutual_none s9qx.1 s9qx.2 2 (by decide) (by decide) n).1⟩

/-- C10: `reset_constraints()` mutates only the receiver: any other cell is
untouched, and concretely, after `q.x = p.x` followed by
`q.x.reset_constraints()`, `q.x`'s list is empty while `p.x` still carries
the reciprocal `LinkedValueConstraint` referencing `q.x` — reset neither
re-establishes nor cleans up link symmetry. -/
theorem C10_reset_frame :
    (∀ (st : St) (s t : Nat), t ≠ s →
      (reset_constraints st s).setOf t = st.setOf t) ∧
    (reset_constraints s9c 3).constraintsOf 3 = [] ∧
    (reset_constraints s9c 3).constraintsOf 2 = [Constraint.linked 3] := by
  refine ⟨?_, by decide, by decide⟩
  intro st s t h
  simp [reset_constraints, setOf_updateSet_other h]

/-- C10 (witness): the frame property applied concretely: resetting `q.x`
(cell 3) leaves `p.x` (cell 2) bit-identical. -/
theorem C10_witness :
    (2 : Nat) ≠ 3 ∧ (reset_constraints s9c 3).setOf 2 = s9c.setOf 2 :=
  ⟨by decide, C10_reset_frame.1 s9c 3 2 (by decide)⟩

end PySketch
